import Mathlib

/-!
Verification of the transcript-processing core of the chat UI
(`src/ui/src/ui/views/chat.ts` and `src/ui/src/ui/chat/message-normalizer.ts`).

The TypeScript code operates on loosely-shaped JavaScript records.  We embed
the relevant fragment of the JavaScript value universe as `JsVal` (strings,
integer numbers, booleans, arrays, objects).  The constructor `selfRef`
stands for an object-graph back-edge, i.e. a cyclic reference: it is the one
kind of value on which `JSON.stringify` throws.  JavaScript `null` and
`undefined` are not part of the universe; an absent field is modelled by
`jsGet` returning `none` (the code under scrutiny only ever reads fields
from records and guards every read with a `typeof` check).
-/

inductive JsVal where
  | str : String → JsVal
  | num : Int → JsVal
  | bool : Bool → JsVal
  | arr : List JsVal → JsVal
  | obj : List (String × JsVal) → JsVal
  | selfRef : JsVal
deriving Repr

/-- Field lookup `m.key`: `none` models `undefined`. -/
def jsGet : JsVal → String → Option JsVal
  | .obj fields, key => fields.lookup key
  | _, _ => none

/-- JavaScript truthiness of a value. -/
def jsTruthy : JsVal → Bool
  | .str s => s ≠ ""
  | .num n => n ≠ 0
  | .bool b => b
  | .arr _ => true
  | .obj _ => true
  | .selfRef => true

/-- `typeof m.key === "string" ? m.key : dflt`. -/
def strFieldOr (m : JsVal) (key : String) (dflt : String) : String :=
  match jsGet m key with
  | some (.str s) => s
  | _ => dflt

/-- `typeof m.key === "number" ? m.key : null`. -/
def numField (m : JsVal) (key : String) : Option Int :=
  match jsGet m key with
  | some (.num n) => some n
  | _ => none

/-- A nonempty string field (the truthiness test JS applies after a
`typeof ... === "string"` guard). -/
def nonemptyStr (m : JsVal) (key : String) : Option String :=
  match jsGet m key with
  | some (.str s) => if s = "" then none else some s
  | _ => none

/-- `toLowerCase`, computed on the character list (kernel-evaluable). -/
def strLower (s : String) : String :=
  String.mk (s.data.map Char.toLower)

/-- `trim`, computed on the character list (kernel-evaluable). -/
def strTrim (s : String) : String :=
  String.mk
    (((s.data.dropWhile Char.isWhitespace).reverse.dropWhile
      Char.isWhitespace).reverse)

-- `String(v)` coercion: strings pass through; arrays join with commas as
-- JS does; plain objects render as "[object Object]".
mutual
def jsToString : JsVal → String
  | .str s => s
  | .num n => n.repr
  | .bool true => "true"
  | .bool false => "false"
  | .arr xs => jsToStringList xs
  | .obj _ => "[object Object]"
  | .selfRef => "[object Object]"

def jsToStringList : List JsVal → String
  | [] => ""
  | [x] => jsToString x
  | x :: y :: xs => jsToString x ++ "," ++ jsToStringList (y :: xs)
end

/-- Minimal JSON string escaping, enough to make serialization injective on
the characters our theorems exercise. -/
def jsonQuoteChar (c : Char) : String :=
  if c = '"' then "\\\""
  else if c = '\\' then "\\\\"
  else if c = '\n' then "\\n"
  else if c = '\r' then "\\r"
  else if c = '\t' then "\\t"
  else String.mk [c]

def jsonQuote (s : String) : String :=
  "\"" ++ String.join (s.data.map jsonQuoteChar) ++ "\""

-- `JSON.stringify`: `none` models the `TypeError` thrown on a cyclic
-- structure (`selfRef` anywhere inside the value).
mutual
def jsonStringify : JsVal → Option String
  | .str s => some (jsonQuote s)
  | .num n => some n.repr
  | .bool true => some "true"
  | .bool false => some "false"
  | .arr xs => (jsonStringifyList xs).map (fun body => "[" ++ body ++ "]")
  | .obj fs => (jsonStringifyFields fs).map (fun body => "\x7b" ++ body ++ "\x7d")
  | .selfRef => none

def jsonStringifyList : List JsVal → Option String
  | [] => some ""
  | [x] => jsonStringify x
  | x :: y :: xs => do
    let hd ← jsonStringify x
    let tl ← jsonStringifyList (y :: xs)
    pure (hd ++ "," ++ tl)

def jsonStringifyFields : List (String × JsVal) → Option String
  | [] => some ""
  | [(k, v)] => (jsonStringify v).map (fun s => jsonQuote k ++ ":" ++ s)
  | (k, v) :: g :: fs => do
    let hd ← jsonStringify v
    let tl ← jsonStringifyFields (g :: fs)
    pure (jsonQuote k ++ ":" ++ hd ++ "," ++ tl)
end

/-- `safeJson` (chat.ts:347-353): `JSON.stringify` with the exception
swallowed into `null`. -/
def safeJson (value : JsVal) : Option String :=
  jsonStringify value

/-- The UTF-16 code units of a string, as `charCodeAt` enumerates them. -/
def utf16Units (s : String) : List Nat :=
  s.data.flatMap (fun c =>
    let v := c.toNat
    if v < 0x10000 then [v]
    else [0xD800 + (v - 0x10000) / 0x400, 0xDC00 + (v - 0x10000) % 0x400])

def fnv1aLoop : List Nat → Nat → Nat
  | [], h => h
  | u :: us, h => fnv1aLoop us (((h ^^^ u) * 0x01000193) % 4294967296)

def toBase36Digit (n : Nat) : Char :=
  if n < 10 then Char.ofNat (48 + n) else Char.ofNat (87 + n)

def toBase36Aux : Nat → Nat → List Char
  | 0, _ => []
  | fuel + 1, n =>
    if n < 36 then [toBase36Digit n]
    else toBase36Aux fuel (n / 36) ++ [toBase36Digit (n % 36)]

/-- `Number.prototype.toString(36)` of an unsigned value; `n + 1` units of
fuel always exceed the digit count, since a base-36 numeral of `n` has at
most as many digits as `n` has bits. -/
def toBase36 (n : Nat) : String :=
  String.mk (toBase36Aux (n + 1) n)

/-- `fnv1a` (chat.ts:355-362): 32-bit FNV-1a over UTF-16 code units,
seed 0x811c9dc5, multiplier 0x01000193 (`Math.imul` = mod 2^32), rendered
unsigned in base 36. -/
def fnv1a (input : String) : String :=
  toBase36 (fnv1aLoop (utf16Units input) 0x811c9dc5)

/-!  The legacy reasoning-markup scanner.  The source uses the regex
`/<\s*think(?:ing)?\s*>([\s\S]*?)<\s*\/\s*think(?:ing)?\s*>/gi` via
`matchAll`; we model the regex engine's behaviour directly: at each
position try to match an opening tag, then take the earliest closing tag
(the lazy `*?`); on failure advance one character, as `matchAll` does. -/

/-- Consume `pat` (given lowercase) case-insensitively from `cs`. -/
def matchCi : List Char → List Char → Option (List Char)
  | [], cs => some cs
  | _ :: _, [] => none
  | p :: ps, c :: cs => if c.toLower = p then matchCi ps cs else none

def skipWs (cs : List Char) : List Char :=
  cs.dropWhile Char.isWhitespace

/-- After `think` was consumed, match `(?:ing)?\s*>` (greedy option first,
with backtracking, exactly as the regex engine does). -/
def finishThinkWord (cs : List Char) : Option (List Char) :=
  let close : List Char → Option (List Char) := fun r =>
    match skipWs r with
    | '>' :: rest => some rest
    | _ => none
  match matchCi ['i', 'n', 'g'] cs with
  | some r =>
    match close r with
    | some rest => some rest
    | none => close cs
  | none => close cs

/-- Match `<\s*think(?:ing)?\s*>` at the head of `cs`. -/
def tryOpenTag : List Char → Option (List Char)
  | '<' :: rest =>
    match matchCi ['t', 'h', 'i', 'n', 'k'] (skipWs rest) with
    | some r => finishThinkWord r
    | none => none
  | _ => none

/-- Match `<\s*\/\s*think(?:ing)?\s*>` at the head of `cs`. -/
def tryCloseTag : List Char → Option (List Char)
  | '<' :: rest =>
    match skipWs rest with
    | '/' :: r2 =>
      match matchCi ['t', 'h', 'i', 'n', 'k'] (skipWs r2) with
      | some r3 => finishThinkWord r3
      | none => none
    | _ => none
  | _ => none

/-- Scan forward for the earliest closing tag; return the text before it
and the remainder after it (the lazy `([\s\S]*?)`). -/
def findClose : List Char → Option (List Char × List Char)
  | [] => none
  | c :: cs2 =>
    match tryCloseTag (c :: cs2) with
    | some rest => some ([], rest)
    | none => (findClose cs2).map (fun p => (c :: p.1, p.2))

/-- All captured inner texts of successive tag-pair matches, fuelled (the
input's length is always enough fuel: every step consumes input). -/
def thinkScanAux : Nat → List Char → List String
  | 0, _ => []
  | _ + 1, [] => []
  | fuel + 1, c :: cs =>
    match tryOpenTag (c :: cs) with
    | some afterOpen =>
      match findClose afterOpen with
      | some (inner, rest) => String.mk inner :: thinkScanAux fuel rest
      | none => thinkScanAux fuel cs
    | none => thinkScanAux fuel cs

/-- The list of capture groups produced by `matchAll` with the legacy
thinking-tag regex. -/
def thinkTagMatches (s : String) : List String :=
  thinkScanAux s.length s.data

/-- Remove every matched tag-pair span, fuelled like `thinkScanAux`. -/
def stripThinkAux : Nat → List Char → List Char
  | 0, cs => cs
  | _ + 1, [] => []
  | fuel + 1, c :: cs =>
    match tryOpenTag (c :: cs) with
    | some afterOpen =>
      match findClose afterOpen with
      | some (_, rest) => stripThinkAux fuel rest
      | none => c :: stripThinkAux fuel cs
    | none => c :: stripThinkAux fuel cs

/-- Modelled from the spec: `stripThinkingTags` is imported from
`src/ui/src/ui/format`, which is not among the provided sources.  Per
spec section 4.1 it is the "strip legacy thinking markup" step: removal of
`<think>...</think>` / `<thinking>...</thinking>` spans, case-insensitive,
non-greedy. -/
def stripThinkingTags (s : String) : String :=
  String.mk (stripThinkAux s.length s.data)

/-- `extractText` (chat.ts:480-504). -/
def stripIfAssistant (role : String) (t : String) : String :=
  if role = "assistant" then stripThinkingTags t else t

/-- The `type == "text"` parts' `text` fields, in order
(chat.ts:488-494 and 540-546). -/
def textPartsOf (parts : List JsVal) : List String :=
  parts.filterMap (fun p =>
    match jsGet p "type", jsGet p "text" with
    | some (.str "text"), some (.str t) => some t
    | _, _ => none)

def extractText (message : JsVal) : Option String :=
  let role := strFieldOr message "role" ""
  match jsGet message "content" with
  | some (.str c) => some (stripIfAssistant role c)
  | some (.arr parts) =>
    let ps := textPartsOf parts
    if ps.isEmpty then
      match jsGet message "text" with
      | some (.str t) => some (stripIfAssistant role t)
      | _ => none
    else some (stripIfAssistant role (String.intercalate "\n" ps))
  | _ =>
    match jsGet message "text" with
    | some (.str t) => some (stripIfAssistant role t)
    | _ => none

/-- `extractRawText` (chat.ts:535-551): like `extractText` but without the
assistant-role stripping. -/
def extractRawText (message : JsVal) : Option String :=
  match jsGet message "content" with
  | some (.str c) => some c
  | some (.arr parts) =>
    let ps := textPartsOf parts
    if ps.isEmpty then
      match jsGet message "text" with
      | some (.str t) => some t
      | _ => none
    else some (String.intercalate "\n" ps)
  | _ =>
    match jsGet message "text" with
    | some (.str t) => some t
    | _ => none

/-- The trimmed, nonempty `type == "thinking"` parts (chat.ts:510-518). -/
def structuredThinkingParts (message : JsVal) : List String :=
  match jsGet message "content" with
  | some (.arr content) =>
    content.filterMap (fun p =>
      match jsGet p "type", jsGet p "thinking" with
      | some (.str "thinking"), some (.str s) =>
        let cleaned := strTrim s
        if cleaned = "" then none else some cleaned
      | _, _ => none)
  | _ => []

/-- `extractThinking` (chat.ts:506-533). -/
def extractThinking (message : JsVal) : Option String :=
  let parts := structuredThinkingParts message
  if parts.isEmpty then
    match extractRawText message with
    | none => none
    | some raw =>
      if raw = "" then none
      else
        let extracted := ((thinkTagMatches raw).map strTrim).filter (fun s => s ≠ "")
        if extracted.isEmpty then none
        else some (String.intercalate "\n" extracted)
  else some (String.intercalate "\n" parts)

/-!  message-normalizer.ts  -/

/-- `isToolResultMessage` (message-normalizer.ts:65-69). -/
def isToolResultMessage (message : JsVal) : Bool :=
  let role := match jsGet message "role" with
    | some (.str s) => strLower s
    | _ => ""
  role == "toolresult" || role == "tool_result"

/-- `normalizeRoleForGrouping` (message-normalizer.ts:48-60). -/
def normalizeRoleForGrouping (role : String) : String :=
  let lower := strLower role
  if lower == "toolresult" || lower == "tool_result" || lower == "tool" ||
      lower == "function" then "assistant"
  else role

/-- One normalized content entry (message-normalizer.ts:28-33); the `as`
casts in the source do not convert values, so the fields keep whatever
value the raw part carried. -/
structure NContentItem where
  type : JsVal
  text : Option JsVal
  name : Option JsVal
  args : Option JsVal
deriving Repr

structure NormalizedMessage where
  role : String
  content : List NContentItem
  timestamp : Int
  id : Option String
deriving Repr

/-- `normalizeMessage` (message-normalizer.ts:13-42).  `now` is the value
`Date.now()` would return during this call. -/
def normalizeMessage (message : JsVal) (now : Int) : NormalizedMessage :=
  let role :=
    if (match jsGet message "toolCallId" with | some (.str _) => true | _ => false) ||
        (match jsGet message "tool_call_id" with | some (.str _) => true | _ => false)
    then "toolResult"
    else strFieldOr message "role" "unknown"
  let content : List NContentItem :=
    match jsGet message "content" with
    | some (.str c) => [⟨.str "text", some (.str c), none, none⟩]
    | some (.arr items) =>
      items.map (fun item =>
        { type := match jsGet item "type" with
            | some v => if jsTruthy v then v else .str "text"
            | none => .str "text"
          text := jsGet item "text"
          name := jsGet item "name"
          args := match jsGet item "args" with
            | some v => if jsTruthy v then some v else jsGet item "arguments"
            | none => jsGet item "arguments" })
    | _ =>
      match jsGet message "text" with
      | some (.str t) => [⟨.str "text", some (.str t), none, none⟩]
      | _ => []
  { role := role
    content := content
    timestamp := (numField message "timestamp").getD now
    id := match jsGet message "id" with | some (.str s) => some s | _ => none }

/-!  Tool cards (chat.ts:564-604 with helpers 865-887).  -/

/-- `normalizeContent` (chat.ts:865-868): `content.filter(Boolean)`. -/
def normalizeContent (content : Option JsVal) : List JsVal :=
  match content with
  | some (.arr xs) => xs.filter jsTruthy
  | _ => []

/-- A tiny model of `JSON.parse` (only invoked by `coerceArgs`, whose result
no claim inspects): parses strings, integers, booleans, arrays and objects;
anything else fails, which `coerceArgs` maps back to the original string. -/
def jsonParseAux : Nat → List Char → Option (JsVal × List Char)
  | 0, _ => none
  | fuel + 1, cs =>
    match skipWs cs with
    | 't' :: 'r' :: 'u' :: 'e' :: rest => some (.bool true, rest)
    | 'f' :: 'a' :: 'l' :: 's' :: 'e' :: rest => some (.bool false, rest)
    | '"' :: rest =>
      let rec str : List Char → Option (List Char × List Char)
        | [] => none
        | '"' :: r => some ([], r)
        | '\\' :: c :: r =>
          (str r).map (fun p =>
            ((if c = 'n' then '\n' else if c = 't' then '\t' else c) :: p.1, p.2))
        | c :: r => (str r).map (fun p => (c :: p.1, p.2))
      (str rest).map (fun p => (.str (String.mk p.1), p.2))
    | '[' :: rest =>
      let rec elems : Nat → List Char → Option (List JsVal × List Char)
        | 0, _ => none
        | f + 1, cs2 =>
          match jsonParseAux f cs2 with
          | none => none
          | some (v, r) =>
            match skipWs r with
            | ',' :: r2 => (elems f r2).map (fun p => (v :: p.1, p.2))
            | ']' :: r2 => some ([v], r2)
            | _ => none
      (match skipWs rest with
       | ']' :: r => some (.arr [], r)
       | _ => (elems fuel rest).map (fun p => (.arr p.1, p.2)))
    | '\x7b' :: rest =>
      let rec fields : Nat → List Char → Option (List (String × JsVal) × List Char)
        | 0, _ => none
        | f + 1, cs2 =>
          match jsonParseAux f cs2 with
          | some (.str k, r) =>
            (match skipWs r with
             | ':' :: r2 =>
               match jsonParseAux f r2 with
               | none => none
               | some (v, r3) =>
                 match skipWs r3 with
                 | ',' :: r4 => (fields f r4).map (fun p => ((k, v) :: p.1, p.2))
                 | '\x7d' :: r4 => some ([(k, v)], r4)
                 | _ => none
             | _ => none)
          | _ => none
      (match skipWs rest with
       | '\x7d' :: r => some (.obj [], r)
       | _ => (fields fuel rest).map (fun p => (.obj p.1, p.2)))
    | c :: rest =>
      if c = '-' || c.isDigit then
        let digits := (c :: rest).takeWhile (fun d => d.isDigit || d = '-')
        let rem := (c :: rest).dropWhile (fun d => d.isDigit || d = '-')
        (String.mk digits).toInt?.map (fun n => (.num n, rem))
      else none
    | [] => none

def jsonParse (s : String) : Option JsVal :=
  match jsonParseAux (s.length + 1) s.data with
  | some (v, rest) => if skipWs rest = [] then some v else none
  | none => none

/-- `coerceArgs` (chat.ts:870-880). -/
def coerceArgs (value : JsVal) : JsVal :=
  match value with
  | .str s =>
    let trimmed := strTrim s
    if trimmed = "" then value
    else if !(trimmed.data.head? == some (Char.ofNat 123)) &&
        !(trimmed.data.head? == some '[') then value
    else
      match jsonParse trimmed with
      | some parsed => parsed
      | none => value
  | _ => value

/-- `extractToolText` (chat.ts:882-887). -/
def extractToolText (item : JsVal) : Option String :=
  match jsGet item "text" with
  | some (.str t) => some t
  | _ =>
    match jsGet item "content" with
    | some (.str c) => some c
    | _ => none

structure ToolCard where
  kind : String
  name : JsVal
  args : Option JsVal := none
  text : Option String := none
deriving Repr

/-- `String(item.type ?? "").toLowerCase()`. -/
def partKind (item : JsVal) : String :=
  strLower (jsToString ((jsGet item "type").getD (.str "")))

/-- The synthesized result-card name (chat.ts:595-598):
`(typeof m.toolName === "string" && m.toolName) || (typeof m.tool_name === "string" && m.tool_name) || "tool"`. -/
def synthToolName (m : JsVal) : String :=
  match nonemptyStr m "toolName" with
  | some s => s
  | none =>
    match nonemptyStr m "tool_name" with
    | some s => s
    | none => "tool"

/-- `extractToolCards` (chat.ts:564-604). -/
def extractToolCards (message : JsVal) : List ToolCard :=
  let content := normalizeContent (jsGet message "content")
  let callCards := content.filterMap (fun item =>
    let kind := partKind item
    let isToolCall :=
      kind == "toolcall" || kind == "tool_call" || kind == "tooluse" ||
      kind == "tool_use" ||
      ((match jsGet item "name" with | some (.str _) => true | _ => false) &&
        (jsGet item "arguments").isSome)
    if isToolCall then
      some { kind := "call"
             name := (jsGet item "name").getD (.str "tool")
             args := ((jsGet item "arguments").orElse
               (fun _ => jsGet item "args")).map coerceArgs }
    else none)
  let resultCards := content.filterMap (fun item =>
    let kind := partKind item
    if kind == "toolresult" || kind == "tool_result" then
      some { kind := "result"
             name := match jsGet item "name" with
               | some (.str s) => JsVal.str s
               | _ => JsVal.str "tool"
             text := extractToolText item }
    else none)
  let cards := callCards ++ resultCards
  if isToolResultMessage message && !(cards.any (fun c => c.kind == "result")) then
    cards ++ [{ kind := "result", name := .str (synthToolName message),
                text := extractText message }]
  else cards

/-!  Identity / key generation and the item builder (chat.ts:242-362).  -/

/-- The fingerprint seed of `messageKey` (chat.ts:340-342):
`extractText(message) ?? (typeof content === "string" ? content : null)`,
then `?? safeJson(message) ?? String(index)`. -/
def keySeed (message : JsVal) (index : Nat) : String :=
  let fingerprint := (extractText message).orElse (fun _ =>
    match jsGet message "content" with
    | some (.str c) => some c
    | _ => none)
  (fingerprint.orElse (fun _ => safeJson message)).getD (Nat.repr index)

/-- `messageKey` (chat.ts:330-345). -/
def messageKey (message : JsVal) (index : Nat) : String :=
  let toolCallId := strFieldOr message "toolCallId" ""
  if toolCallId ≠ "" then "tool:" ++ toolCallId
  else
    let id := strFieldOr message "id" ""
    if id ≠ "" then "msg:" ++ id
    else
      let messageId := strFieldOr message "messageId" ""
      if messageId ≠ "" then "msg:" ++ messageId
      else
        let timestamp := numField message "timestamp"
        let role := strFieldOr message "role" "unknown"
        let hash := fnv1a (keySeed message index)
        match timestamp with
        | some t =>
          if t ≠ 0 then "msg:" ++ role ++ ":" ++ t.repr ++ ":" ++ hash
          else "msg:" ++ role ++ ":" ++ hash
        | none => "msg:" ++ role ++ ":" ++ hash

/-- The displayed-content selection of `renderMessage` (chat.ts:398-419).
`Except Unit` captures an escaping exception: the `JSON.stringify` on
line 410 is *not* guarded, so a cyclic message with no tool cards throws.
(The `null, 2` pretty-printing arguments only change whitespace, which no
theorem below inspects, so the plain serializer stands in for it.) -/
inductive MsgDisplay where
  | text : String → MsgDisplay
  | json : String → MsgDisplay
deriving Repr, DecidableEq

def renderMessageDisplay (message : JsVal) : Except Unit (Option MsgDisplay) := do
  let toolCards := extractToolCards message
  let hasToolCards := !toolCards.isEmpty
  let isToolResult := isToolResultMessage message ||
    (match jsGet message "toolCallId" with | some (.str _) => true | _ => false) ||
    (match jsGet message "tool_call_id" with | some (.str _) => true | _ => false)
  let extractedText := extractText message
  let contentText : Option String :=
    match jsGet message "content" with
    | some (.str c) => some c
    | _ => none
  let fallback : Option String ←
    if hasToolCards then pure none
    else match jsonStringify message with
      | some s => pure (some s)
      | none => throw ()
  pure
    (if !isToolResult && strTrim (extractedText.getD "") ≠ "" then
      some (.text (extractedText.getD ""))
    else if !isToolResult && strTrim (contentText.getD "") ≠ "" then
      some (.text (contentText.getD ""))
    else if !isToolResult && fallback.isSome then
      some (.json (fallback.getD ""))
    else none)

/-!  The flat render-item model (chat.ts:24-64 types, 244-328 logic).  -/

inductive ChatItem where
  | message : String → JsVal → ChatItem
  | stream : String → String → Int → ChatItem
  | readingIndicator : String → ChatItem
deriving Repr

structure MessageGroup where
  key : String
  role : String
  messages : List (JsVal × String)
  timestamp : Int
  isStreaming : Bool
deriving Repr

inductive RenderEntry where
  | item : ChatItem → RenderEntry
  | group : MessageGroup → RenderEntry
deriving Repr

def isMessageItem : ChatItem → Bool
  | .message _ _ => true
  | _ => false

/-- `groupMessages` (chat.ts:244-279), as a recursion carrying the open
group; emitting entries in order is the standard rewriting of the source's
push-to-result loop. -/
def closeGroup : Option MessageGroup → List RenderEntry
  | some g => [.group g]
  | none => []

def groupMessagesAux (now : Int) : Option MessageGroup → List ChatItem → List RenderEntry
  | cur, [] => closeGroup cur
  | cur, .message key msg :: rest =>
    let normalized := normalizeMessage msg now
    let role := normalizeRoleForGrouping normalized.role
    let timestamp := if normalized.timestamp = 0 then now else normalized.timestamp
    (match cur with
     | some g =>
       if g.role = role then
         groupMessagesAux now
           (some { g with messages := g.messages ++ [(msg, key)] }) rest
       else
         .group g :: groupMessagesAux now
           (some { key := "group:" ++ role ++ ":" ++ key, role := role
                   messages := [(msg, key)], timestamp := timestamp
                   isStreaming := false }) rest
     | none =>
       groupMessagesAux now
         (some { key := "group:" ++ role ++ ":" ++ key, role := role
                 messages := [(msg, key)], timestamp := timestamp
                 isStreaming := false }) rest)
  | cur, .stream key text startedAt :: rest =>
    closeGroup cur ++ (.item (.stream key text startedAt) :: groupMessagesAux now none rest)
  | cur, .readingIndicator key :: rest =>
    closeGroup cur ++ (.item (.readingIndicator key) :: groupMessagesAux now none rest)

def groupMessages (now : Int) (items : List ChatItem) : List RenderEntry :=
  groupMessagesAux now none items

def CHAT_HISTORY_RENDER_LIMIT : Nat := 200

/-- The history/tool loops of `buildChatItems` (chat.ts:297-310). -/
def keyedItems : List JsVal → Nat → List ChatItem
  | [], _ => []
  | m :: ms, i => .message (messageKey m i) m :: keyedItems ms (i + 1)

/-- `buildChatItems` (chat.ts:281-328).  `now` is `Date.now()` at the time
of the call; `props.messages`/`props.toolMessages` are arrays by their
declared type, so the `Array.isArray` guards are the identity. -/
def buildChatItems (sessionKey : String) (messages toolMessages : List JsVal)
    (stream : Option String) (streamStartedAt : Option Int)
    (useNewChatLayout : Bool) (now : Int) : List RenderEntry :=
  let history := messages
  let tools := toolMessages
  let historyStart := history.length - CHAT_HISTORY_RENDER_LIMIT
  let noticeItems : List ChatItem :=
    if historyStart > 0 then
      [.message "chat:history:notice"
        (.obj [("role", .str "system"),
               ("content", .str ("Showing last " ++
                 Nat.repr CHAT_HISTORY_RENDER_LIMIT ++ " messages (" ++
                 Nat.repr historyStart ++ " hidden).")),
               ("timestamp", .num now)])]
    else []
  let historyItems := keyedItems (history.drop historyStart) historyStart
  let toolItems := keyedItems tools history.length
  let streamItems : List ChatItem :=
    match stream with
    | none => []
    | some s =>
      let key := "stream:" ++ sessionKey ++ ":" ++
        (match streamStartedAt with | some t => t.repr | none => "live")
      if (strTrim s).length > 0 then
        [.stream key s (match streamStartedAt with | some t => t | none => now)]
      else [.readingIndicator key]
  let items := noticeItems ++ historyItems ++ toolItems ++ streamItems
  if useNewChatLayout then groupMessages now items else items.map .item

/-!  Spec-side restatements and observation functions.

The definitions below are written from the specification's wording (not
from the code) and are compared with the embedded source functions by the
theorems, or they are projections used to observe the builder's output. -/

/-- Spec section 4.3 key precedence, amended to what the code implements:
only the camelCase `toolCallId` is consulted, identifier fields count only
when they are nonempty strings, and the timestamp segment appears only for
a nonzero numeric timestamp. -/
def fingerprintSeedSpec (m : JsVal) (i : Nat) : String :=
  match extractText m with
  | some t => t
  | none =>
    match jsGet m "content" with
    | some (.str c) => c
    | _ =>
      match safeJson m with
      | some j => j
      | none => Nat.repr i

def messageKeySpec (m : JsVal) (i : Nat) : String :=
  match nonemptyStr m "toolCallId" with
  | some tc => "tool:" ++ tc
  | none =>
    match nonemptyStr m "id" with
    | some v => "msg:" ++ v
    | none =>
      match nonemptyStr m "messageId" with
      | some v => "msg:" ++ v
      | none =>
        let role := strFieldOr m "role" "unknown"
        let hash := fnv1a (fingerprintSeedSpec m i)
        match numField m "timestamp" with
        | some t =>
          if t = 0 then "msg:" ++ role ++ ":" ++ hash
          else "msg:" ++ role ++ ":" ++ t.repr ++ ":" ++ hash
        | none => "msg:" ++ role ++ ":" ++ hash

/-- The claim's reading of `extractText`: string content, else the joined
`text`-typed parts, else the top-level `text` field, each passed through
the assistant-role strip; `none` only when all three sources are absent. -/
def extractTextSpec (m : JsVal) : Option String :=
  let role := strFieldOr m "role" ""
  let fromString : Option String :=
    match jsGet m "content" with
    | some (.str c) => some c
    | _ => none
  let fromParts : Option String :=
    match jsGet m "content" with
    | some (.arr parts) =>
      let ps := textPartsOf parts
      if ps.isEmpty then none else some (String.intercalate "\n" ps)
    | _ => none
  let fromTop : Option String :=
    match jsGet m "text" with
    | some (.str t) => some t
    | _ => none
  ((fromString.orElse (fun _ => fromParts)).orElse (fun _ => fromTop)).map
    (stripIfAssistant role)

/-- Whether any of the three text sources exists. -/
def hasTextSourceB (m : JsVal) : Bool :=
  (match jsGet m "content" with | some (.str _) => true | _ => false) ||
  (match jsGet m "content" with
   | some (.arr ps) => !(textPartsOf ps).isEmpty
   | _ => false) ||
  (match jsGet m "text" with | some (.str _) => true | _ => false)

/-- The legacy-tag fallback tier of thinking extraction, as the spec words
it: scan the raw (unstripped) text for tag pairs, trim, drop empties. -/
def legacyThinkingOf (m : JsVal) : Option String :=
  match extractRawText m with
  | none => none
  | some raw =>
    if raw = "" then none
    else
      let xs := ((thinkTagMatches raw).map strTrim).filter (fun s => s ≠ "")
      if xs.isEmpty then none else some (String.intercalate "\n" xs)

/-- Whether some normalized content part carries an explicit tool-result
type (the condition under which the second pass produces a result card). -/
def hasPartResultB (m : JsVal) : Bool :=
  (normalizeContent (jsGet m "content")).any (fun item =>
    partKind item == "toolresult" || partKind item == "tool_result")

def itemKey : ChatItem → String
  | .message k _ => k
  | .stream k _ _ => k
  | .readingIndicator k => k

def entryKey : RenderEntry → String
  | .item it => itemKey it
  | .group g => g.key

def keysOfEntries (entries : List RenderEntry) : List String :=
  entries.map entryKey

/-- The messages carried by plain (ungrouped) message items, in order. -/
def msgsOf (entries : List RenderEntry) : List JsVal :=
  entries.filterMap (fun e =>
    match e with
    | .item (.message _ m) => some m
    | _ => none)

/-- Flattening a grouped sequence back to the flat item sequence. -/
def flattenEntry : RenderEntry → List ChatItem
  | .item it => [it]
  | .group g => g.messages.map (fun p => .message p.2 p.1)

def flattenEntries (entries : List RenderEntry) : List ChatItem :=
  entries.flatMap flattenEntry

/-- Shape observation for the grouping examples: role and size for groups,
a tag for pass-through items. -/
def entryShape : RenderEntry → String × Nat
  | .group g => (g.role, g.messages.length)
  | .item (.stream _ _ _) => ("stream", 0)
  | .item (.readingIndicator _) => ("indicator", 0)
  | .item (.message _ _) => ("message", 0)

/-- No two adjacent entries are groups of the same role (run-maximality). -/
def noAdjSameRoleB : List RenderEntry → Bool
  | .group g :: .group h :: rest =>
    g.role ≠ h.role && noAdjSameRoleB (.group h :: rest)
  | _ :: rest => noAdjSameRoleB rest
  | [] => true

/-- Every member of a group normalizes to the group's role. -/
def groupHomogeneousB (now : Int) (e : RenderEntry) : Bool :=
  match e with
  | .group g => g.messages.all (fun p =>
      normalizeRoleForGrouping (normalizeMessage p.1 now).role == g.role)
  | .item _ => true

def isLiveEntry : RenderEntry → Bool
  | .item (.stream _ _ _) => true
  | .item (.readingIndicator _) => true
  | _ => false

/-- The timestamp field of the message in the first entry, for observing
that the truncation notice is stamped with the wall clock. -/
def headEntryTimestamp (entries : List RenderEntry) : Option Int :=
  match entries.head? with
  | some (.item (.message _ m)) => numField m "timestamp"
  | _ => none

/-- A message that keys by a nonempty `id` (and not by `toolCallId`). -/
def goodIdB (m : JsVal) : Bool :=
  strFieldOr m "toolCallId" "" == "" && !(strFieldOr m "id" "" == "")

/-- A nonzero numeric `timestamp` field (the condition under which neither
`normalizeMessage` nor the grouping fold consults the wall clock). -/
def hasStableTsB (m : JsVal) : Bool :=
  match jsGet m "timestamp" with
  | some (.num v) => v ≠ 0
  | _ => false

/-- The items a still-open group would contribute when flattened. -/
def pendingItems : Option MessageGroup → List ChatItem
  | some g => g.messages.map (fun p => .message p.2 p.1)
  | none => []

def curHomogB (now : Int) : Option MessageGroup → Bool
  | some g => groupHomogeneousB now (.group g)
  | none => true

/-!  Concrete inputs used by example conjuncts, counterexamples and
witnesses.  -/

/-- An id-less message; its key is derived purely from role, timestamp and
content fingerprint. -/
def dupMsg : JsVal :=
  .obj [("role", .str "user"), ("content", .str "hi"), ("timestamp", .num 1)]

/-- A message carrying a native string identifier and a stable timestamp. -/
def idMsg (id : String) : JsVal :=
  .obj [("role", .str "user"), ("id", .str id), ("content", .str "x"),
        ("timestamp", .num 5)]

/-- A cyclic message (JSON-unserializable) that still has string content. -/
def cyclicMsg : JsVal :=
  .obj [("role", .str "user"), ("content", .str "hi"), ("self", .selfRef)]

/-- A cyclic message with no text source at all. -/
def bareCyclicMsg : JsVal :=
  .obj [("role", .str "u"), ("self", .selfRef)]

/-- The spec's tool-result synthesis example. -/
def grepMsg : JsVal :=
  .obj [("role", .str "toolResult"), ("toolName", .str "grep"),
        ("content", .str "matches")]

/-- A message with both an explicit thinking part and a legacy tag span. -/
def thinkBothMsg : JsVal :=
  .obj [("role", .str "assistant"),
        ("content", .arr [
          .obj [("type", .str "thinking"), ("thinking", .str "X")],
          .obj [("type", .str "text"),
                ("text", .str "hello <think>Y</think> world")]])]

/-- The same message without the structured thinking part. -/
def thinkTagsOnlyMsg : JsVal :=
  .obj [("role", .str "assistant"),
        ("content", .arr [
          .obj [("type", .str "text"),
                ("text", .str "hello <think>Y</think> world")]])]

/-- A plain message with the given role and timestamp. -/
def roleMsg (role : String) (ts : Int) : JsVal :=
  .obj [("role", .str role), ("content", .str "x"), ("timestamp", .num ts)]

/-- Two messages with distinct nonempty ids and no `toolCallId` whose
*group* keys nevertheless coincide: `group:` + role + `:` + first member
key concatenates without escaping, so role `"u"` with key `msg:v:msg:w`
and role `"u:msg:v"` with key `msg:w` both give `group:u:msg:v:msg:w`. -/
def groupCollideA : JsVal := .obj [("role", .str "u"), ("id", .str "v:msg:w")]

def groupCollideB : JsVal := .obj [("role", .str "u:msg:v"), ("id", .str "w")]

/-!  Shared helper lemmas.  -/

theorem strAppendCancel (p a b : String) (h : p ++ a = p ++ b) : a = b := by
  have hd : (p ++ a).data = (p ++ b).data := congrArg String.data h
  rw [String.data_append, String.data_append] at hd
  have := List.append_cancel_left hd
  ext1
  exact this

theorem strAppendInj (p : String) : Function.Injective (fun s => p ++ s) := by
  intro a b h
  exact strAppendCancel p a b h

theorem msg_key_ne_notice (a : String) : "msg:" ++ a ≠ "chat:history:notice" := by
  intro h
  have hd : (("msg:" ++ a).data).head? = ("chat:history:notice".data).head? :=
    congrArg (fun s => s.data.head?) h
  rw [String.data_append] at hd
  rw [show "msg:".data = ['m', 's', 'g', ':'] by decide] at hd
  simp at hd

theorem msg_key_ne_stream (a b : String) : "msg:" ++ a ≠ "stream:" ++ b := by
  intro h
  have hd : (("msg:" ++ a).data).head? = (("stream:" ++ b).data).head? :=
    congrArg (fun s => s.data.head?) h
  rw [String.data_append, String.data_append] at hd
  rw [show "msg:".data = ['m', 's', 'g', ':'] by decide,
    show "stream:".data = ['s', 't', 'r', 'e', 'a', 'm', ':'] by decide] at hd
  simp at hd

theorem notice_ne_stream (b : String) :
    ("chat:history:notice" : String) ≠ "stream:" ++ b := by
  intro h
  have hd : ("chat:history:notice".data).head? = (("stream:" ++ b).data).head? :=
    congrArg (fun s => s.data.head?) h
  rw [String.data_append] at hd
  rw [show "stream:".data = ['s', 't', 'r', 'e', 'a', 'm', ':'] by decide] at hd
  simp at hd

theorem filterMap_eq_nil_of {α β : Type} (g : α → Option β) (p : α → Bool)
    (hg : ∀ x, p x = false → g x = none) :
    ∀ l : List α, l.any p = false → l.filterMap g = [] := by
  intro l
  induction l with
  | nil => intro _; rfl
  | cons x xs ih =>
    intro h
    simp only [List.any_cons, Bool.or_eq_false_iff] at h
    simp [List.filterMap_cons, hg x h.1, ih h.2]

theorem keyedItems_all_message (ms : List JsVal) :
    ∀ i, (keyedItems ms i).all isMessageItem = true := by
  induction ms with
  | nil => intro i; rfl
  | cons m ms ih =>
    intro i
    simp [keyedItems, isMessageItem, ih]

theorem keyedItems_mem_msg (ms : List JsVal) :
    ∀ i k m, ChatItem.message k m ∈ keyedItems ms i → m ∈ ms := by
  induction ms with
  | nil => intro i k m h; simp [keyedItems] at h
  | cons x xs ih =>
    intro i k m h
    simp only [keyedItems, List.mem_cons] at h
    rcases h with h | h
    · cases h; simp
    · exact List.mem_cons_of_mem _ (ih (i + 1) k m h)

theorem keyedItems_msgs (ms : List JsVal) :
    ∀ i, (keyedItems ms i).filterMap
      (fun it => match it with | .message _ m => some m | _ => none) = ms := by
  induction ms with
  | nil => intro i; rfl
  | cons m ms ih =>
    intro i
    simp [keyedItems, List.filterMap_cons, ih]

theorem msgsOf_map_item (l : List ChatItem) :
    msgsOf (l.map .item) = l.filterMap
      (fun it => match it with | .message _ m => some m | _ => none) := by
  induction l with
  | nil => rfl
  | cons x xs ih =>
    cases x with
    | message k m => exact congrArg (List.cons m) ih
    | stream a b c => exact ih
    | readingIndicator a => exact ih

theorem keysOf_map_item (l : List ChatItem) :
    keysOfEntries (l.map .item) = l.map itemKey := by
  induction l with
  | nil => rfl
  | cons x xs ih => exact congrArg (List.cons (itemKey x)) ih

theorem keyedItems_keys_good (ms : List JsVal) :
    ∀ i, ms.all goodIdB = true →
      (keyedItems ms i).map itemKey =
        ms.map (fun m => "msg:" ++ strFieldOr m "id" "") := by
  induction ms with
  | nil => intro i _; rfl
  | cons m ms ih =>
    intro i h
    simp only [List.all_cons, Bool.and_eq_true] at h
    have hm := h.1
    simp only [goodIdB, Bool.and_eq_true, beq_iff_eq, Bool.not_eq_true',
      beq_eq_false_iff_ne, ne_eq] at hm
    have hkey : messageKey m i = "msg:" ++ strFieldOr m "id" "" := by
      unfold messageKey
      simp [hm.1, hm.2]
    simp [keyedItems, itemKey, hkey, ih (i + 1) h.2]

theorem flatten_groupAux (now : Int) (items : List ChatItem) :
    ∀ cur, flattenEntries (groupMessagesAux now cur items) =
      pendingItems cur ++ items := by
  induction items with
  | nil =>
    intro cur
    cases cur <;>
      simp [groupMessagesAux, closeGroup, flattenEntries, pendingItems, flattenEntry]
  | cons item rest ih =>
    intro cur
    have ih' : ∀ cur2, (groupMessagesAux now cur2 rest).flatMap flattenEntry =
        pendingItems cur2 ++ rest := ih
    cases item with
    | message key msg =>
      cases cur with
      | none =>
        simp [groupMessagesAux, flattenEntries, ih', pendingItems, flattenEntry]
      | some g =>
        by_cases h : g.role = normalizeRoleForGrouping (normalizeMessage msg now).role
        · simp [groupMessagesAux, h, flattenEntries, ih', pendingItems, flattenEntry]
        · simp [groupMessagesAux, h, flattenEntries, ih', pendingItems, flattenEntry]
    | stream k t s =>
      cases cur <;>
        simp [groupMessagesAux, closeGroup, flattenEntries, ih', pendingItems, flattenEntry]
    | readingIndicator k =>
      cases cur <;>
        simp [groupMessagesAux, closeGroup, flattenEntries, ih', pendingItems, flattenEntry]

theorem headGroup_groupAux (now : Int) (items : List ChatItem) :
    ∀ g, ∃ g2 rest2, groupMessagesAux now (some g) items =
      .group g2 :: rest2 ∧ g2.role = g.role := by
  induction items with
  | nil =>
    intro g
    exact ⟨g, [], rfl, rfl⟩
  | cons item rest ih =>
    intro g
    cases item with
    | message key msg =>
      by_cases h : g.role = normalizeRoleForGrouping (normalizeMessage msg now).role
      · obtain ⟨g2, rest2, he, hr⟩ := ih
          { g with messages := g.messages ++ [(msg, key)] }
        refine ⟨g2, rest2, ?_, hr⟩
        simp only [groupMessagesAux]
        rw [if_pos h]
        exact he
      · refine ⟨g, groupMessagesAux now (some
            { key := "group:" ++ normalizeRoleForGrouping (normalizeMessage msg now).role ++ ":" ++ key,
              role := normalizeRoleForGrouping (normalizeMessage msg now).role,
              messages := [(msg, key)],
              timestamp := if (normalizeMessage msg now).timestamp = 0 then now
                else (normalizeMessage msg now).timestamp,
              isStreaming := false }) rest, ?_, rfl⟩
        simp only [groupMessagesAux]
        rw [if_neg h]
    | stream k t s =>
      exact ⟨g, .item (.stream k t s) :: groupMessagesAux now none rest, rfl, rfl⟩
    | readingIndicator k =>
      exact ⟨g, .item (.readingIndicator k) :: groupMessagesAux now none rest, rfl, rfl⟩

theorem noAdj_item_cons (it : ChatItem) (l : List RenderEntry) :
    noAdjSameRoleB (.item it :: l) = noAdjSameRoleB l := by
  cases l <;> rfl

theorem noAdj_group_item (g : MessageGroup) (it : ChatItem) (l : List RenderEntry) :
    noAdjSameRoleB (.group g :: .item it :: l) = noAdjSameRoleB (.item it :: l) := rfl

theorem noAdj_group_group (g h : MessageGroup) (l : List RenderEntry) :
    noAdjSameRoleB (.group g :: .group h :: l) =
      (g.role ≠ h.role && noAdjSameRoleB (.group h :: l)) := rfl

theorem noAdj_groupAux (now : Int) (items : List ChatItem) :
    ∀ cur, noAdjSameRoleB (groupMessagesAux now cur items) = true := by
  induction items with
  | nil =>
    intro cur
    cases cur <;> rfl
  | cons item rest ih =>
    intro cur
    cases item with
    | message key msg =>
      cases cur with
      | none =>
        simp only [groupMessagesAux]
        exact ih _
      | some g =>
        by_cases h : g.role = normalizeRoleForGrouping (normalizeMessage msg now).role
        · simp only [groupMessagesAux]
          rw [if_pos h]
          exact ih _
        · simp only [groupMessagesAux]
          rw [if_neg h]
          obtain ⟨g2, rest2, he, hr⟩ := headGroup_groupAux now rest
            { key := "group:" ++ normalizeRoleForGrouping (normalizeMessage msg now).role ++ ":" ++ key,
              role := normalizeRoleForGrouping (normalizeMessage msg now).role,
              messages := [(msg, key)],
              timestamp := if (normalizeMessage msg now).timestamp = 0 then now
                else (normalizeMessage msg now).timestamp,
              isStreaming := false }
          rw [he, noAdj_group_group, ← he]
          have hne : g.role ≠ g2.role := by
            rw [hr]
            exact h
          simp [hne, ih]
    | stream k t s =>
      cases cur with
      | none =>
        have : groupMessagesAux now none (ChatItem.stream k t s :: rest) =
            .item (.stream k t s) :: groupMessagesAux now none rest := rfl
        rw [this, noAdj_item_cons]
        exact ih none
      | some g =>
        have : groupMessagesAux now (some g) (ChatItem.stream k t s :: rest) =
            .group g :: .item (.stream k t s) :: groupMessagesAux now none rest := rfl
        rw [this, noAdj_group_item, noAdj_item_cons]
        exact ih none
    | readingIndicator k =>
      cases cur with
      | none =>
        have : groupMessagesAux now none (ChatItem.readingIndicator k :: rest) =
            .item (.readingIndicator k) :: groupMessagesAux now none rest := rfl
        rw [this, noAdj_item_cons]
        exact ih none
      | some g =>
        have : groupMessagesAux now (some g) (ChatItem.readingIndicator k :: rest) =
            .group g :: .item (.readingIndicator k) :: groupMessagesAux now none rest := rfl
        rw [this, noAdj_group_item, noAdj_item_cons]
        exact ih none

theorem homog_groupAux (now : Int) (items : List ChatItem) :
    ∀ cur, curHomogB now cur = true →
      (groupMessagesAux now cur items).all (groupHomogeneousB now) = true := by
  induction items with
  | nil =>
    intro cur hc
    cases cur with
    | none => rfl
    | some g => simpa [groupMessagesAux, closeGroup, curHomogB] using hc
  | cons item rest ih =>
    intro cur hc
    cases item with
    | message key msg =>
      cases cur with
      | none =>
        simp only [groupMessagesAux]
        apply ih
        simp [curHomogB, groupHomogeneousB]
      | some g =>
        by_cases h : g.role = normalizeRoleForGrouping (normalizeMessage msg now).role
        · simp only [groupMessagesAux]
          rw [if_pos h]
          apply ih
          simp only [curHomogB, groupHomogeneousB, List.all_append, Bool.and_eq_true] at hc ⊢
          refine ⟨hc, ?_⟩
          simp [← h]
        · simp only [groupMessagesAux]
          rw [if_neg h]
          simp only [List.all_cons, Bool.and_eq_true]
          refine ⟨by simpa [groupHomogeneousB, curHomogB] using hc, ?_⟩
          apply ih
          simp [curHomogB, groupHomogeneousB]
    | stream k t s =>
      cases cur with
      | none =>
        simp only [groupMessagesAux, closeGroup, List.nil_append, List.all_cons,
          Bool.and_eq_true]
        exact ⟨rfl, ih none rfl⟩
      | some g =>
        simp only [groupMessagesAux, closeGroup, List.cons_append, List.nil_append,
          List.all_cons, Bool.and_eq_true]
        exact ⟨by simpa [groupHomogeneousB, curHomogB] using hc, rfl, ih none rfl⟩
    | readingIndicator k =>
      cases cur with
      | none =>
        simp only [groupMessagesAux, closeGroup, List.nil_append, List.all_cons,
          Bool.and_eq_true]
        exact ⟨rfl, ih none rfl⟩
      | some g =>
        simp only [groupMessagesAux, closeGroup, List.cons_append, List.nil_append,
          List.all_cons, Bool.and_eq_true]
        exact ⟨by simpa [groupHomogeneousB, curHomogB] using hc, rfl, ih none rfl⟩

theorem groupAux_append_nonmsg (now : Int) (it : ChatItem)
    (hit : isMessageItem it = false) (items : List ChatItem) :
    ∀ cur, groupMessagesAux now cur (items ++ [it]) =
      groupMessagesAux now cur items ++ [.item it] := by
  induction items with
  | nil =>
    intro cur
    cases it with
    | message k m => simp [isMessageItem] at hit
    | stream k t s =>
      cases cur <;> simp [groupMessagesAux, closeGroup]
    | readingIndicator k =>
      cases cur <;> simp [groupMessagesAux, closeGroup]
  | cons x rest ih =>
    intro cur
    cases x with
    | message key msg =>
      cases cur with
      | none =>
        simp only [List.cons_append, groupMessagesAux]
        exact ih _
      | some g =>
        by_cases h : g.role = normalizeRoleForGrouping (normalizeMessage msg now).role
        · simp only [List.cons_append, groupMessagesAux]
          rw [if_pos h, if_pos h]
          exact ih _
        · simp only [List.cons_append, groupMessagesAux]
          rw [if_neg h, if_neg h]
          simp only [List.append_eq]
          rw [ih _]
          simp
    | stream k t s =>
      cases cur <;>
        · simp only [List.cons_append, groupMessagesAux, closeGroup, List.append_eq]
          rw [ih none]
          simp
    | readingIndicator k =>
      cases cur <;>
        · simp only [List.cons_append, groupMessagesAux, closeGroup, List.append_eq]
          rw [ih none]
          simp

theorem groupAux_no_live (now : Int) (items : List ChatItem)
    (hall : items.all isMessageItem = true) :
    ∀ cur, (groupMessagesAux now cur items).all (fun e => !isLiveEntry e) = true := by
  induction items with
  | nil =>
    intro cur
    cases cur <;> rfl
  | cons x rest ih =>
    simp only [List.all_cons, Bool.and_eq_true] at hall
    intro cur
    cases x with
    | message key msg =>
      cases cur with
      | none =>
        simp only [groupMessagesAux]
        exact ih hall.2 _
      | some g =>
        by_cases h : g.role = normalizeRoleForGrouping (normalizeMessage msg now).role
        · simp only [groupMessagesAux]
          rw [if_pos h]
          exact ih hall.2 _
        · simp only [groupMessagesAux]
          rw [if_neg h]
          simp only [List.all_cons, Bool.and_eq_true]
          exact ⟨rfl, ih hall.2 _⟩
    | stream k t s => simp [isMessageItem] at hall
    | readingIndicator k => simp [isMessageItem] at hall

theorem normalizeMessage_indep (m : JsVal) (t1 t2 v : Int)
    (hjs : jsGet m "timestamp" = some (.num v)) :
    normalizeMessage m t1 = normalizeMessage m t2 := by
  unfold normalizeMessage
  simp [numField, hjs]

theorem normalizeMessage_timestamp (m : JsVal) (t v : Int)
    (hjs : jsGet m "timestamp" = some (.num v)) :
    (normalizeMessage m t).timestamp = v := by
  simp [normalizeMessage, numField, hjs]

theorem groupAux_now_indep (t1 t2 : Int) (items : List ChatItem) :
    (∀ k m, ChatItem.message k m ∈ items → hasStableTsB m = true) →
    ∀ cur, groupMessagesAux t1 cur items = groupMessagesAux t2 cur items := by
  induction items with
  | nil =>
    intro _ cur
    cases cur <;> rfl
  | cons x rest ih =>
    intro hst cur
    have hrest : ∀ k m, ChatItem.message k m ∈ rest → hasStableTsB m = true :=
      fun k m hm => hst k m (List.mem_cons_of_mem _ hm)
    cases x with
    | message key msg =>
      have hm : hasStableTsB msg = true := hst key msg (List.mem_cons_self _ _)
      obtain ⟨v, hjs, hvne⟩ : ∃ v, jsGet msg "timestamp" = some (.num v) ∧ v ≠ 0 := by
        unfold hasStableTsB at hm
        cases hjs : jsGet msg "timestamp" with
        | none => rw [hjs] at hm; simp at hm
        | some w =>
          rw [hjs] at hm
          cases w with
          | num n => exact ⟨n, rfl, by simpa using hm⟩
          | str s => simp at hm
          | bool b => simp at hm
          | arr xs => simp at hm
          | obj fs => simp at hm
          | selfRef => simp at hm
      cases cur with
      | none =>
        simp only [groupMessagesAux, normalizeMessage_indep msg t1 t2 v hjs,
          normalizeMessage_timestamp msg t2 v hjs, if_neg hvne]
        exact ih hrest _
      | some g =>
        simp only [groupMessagesAux, normalizeMessage_indep msg t1 t2 v hjs,
          normalizeMessage_timestamp msg t2 v hjs, if_neg hvne]
        by_cases h : g.role = normalizeRoleForGrouping (normalizeMessage msg t2).role
        · rw [if_pos h, if_pos h]
          exact ih hrest _
        · rw [if_neg h, if_neg h]
          rw [ih hrest _]
    | stream k t s =>
      cases cur <;>
        · simp only [groupMessagesAux, closeGroup]
          rw [ih hrest none]
    | readingIndicator k =>
      cases cur <;>
        · simp only [groupMessagesAux, closeGroup]
          rw [ih hrest none]

theorem nonemptyStr_eq_strFieldOr (m : JsVal) (k : String) :
    nonemptyStr m k =
      (if strFieldOr m k "" = "" then none else some (strFieldOr m k "")) := by
  unfold nonemptyStr strFieldOr
  cases h : jsGet m k with
  | none => simp
  | some v => cases v <;> simp

theorem seed_eq (m : JsVal) (i : Nat) : keySeed m i = fingerprintSeedSpec m i := by
  unfold keySeed fingerprintSeedSpec
  cases he : extractText m with
  | some t => simp [Option.orElse]
  | none =>
    cases hc : jsGet m "content" with
    | none => cases hs : safeJson m <;> simp [Option.orElse, hs]
    | some v => cases v <;> (cases hs : safeJson m <;> simp [Option.orElse, hs])

/-!  Claim theorems.  -/

/-- C3, counterexample.  The claim says the snake_case `tool_call_id`
triggers the `"tool:"` key form, and that the timestamp segment appears
whenever a numeric timestamp exists.  The code consults only the camelCase
`toolCallId` (chat.ts:332), and a numeric timestamp of `0` is falsy, so the
key omits the timestamp segment: both predictions fail on concrete
inputs. -/
theorem C3_keyPrecedence_counterexample :
    messageKey (.obj [("tool_call_id", .str "x"), ("content", .str "hi")]) 0 ≠
      "tool:x" ∧
    messageKey (.obj [("role", .str "user"), ("timestamp", .num 0),
      ("content", .str "hi")]) 0 ≠ "msg:user:0:" ++ fnv1a "hi" := by
  constructor
  · decide
  · decide

/-- C3 (corrected): for every raw message the derived key follows the
first-match precedence — nonempty string `toolCallId` (only the camelCase
spelling) gives `"tool:" + toolCallId`; else nonempty `id` gives
`"msg:" + id`; else nonempty `messageId` gives `"msg:" + messageId`;
otherwise the key is built from the role, the FNV-1a base36 hash of the
fingerprint seed (extracted text, else string content, else JSON
serialization, else the positional index) and, only when a *nonzero*
numeric timestamp exists, the timestamp segment. -/
theorem C3_keyPrecedence_amended (m : JsVal) (i : Nat) :
    messageKey m i = messageKeySpec m i := by
  unfold messageKey messageKeySpec
  rw [nonemptyStr_eq_strFieldOr, nonemptyStr_eq_strFieldOr,
    nonemptyStr_eq_strFieldOr, ← seed_eq]
  by_cases h1 : strFieldOr m "toolCallId" "" = ""
  · simp only [h1, if_pos rfl, ne_eq, not_true_eq_false, if_false]
    by_cases h2 : strFieldOr m "id" "" = ""
    · simp only [h2, if_pos rfl, not_true_eq_false, if_false]
      by_cases h3 : strFieldOr m "messageId" "" = ""
      · simp only [h3, if_pos rfl, not_true_eq_false, if_false]
        cases ht : numField m "timestamp" with
        | none => simp
        | some t =>
          by_cases h0 : t = 0
          · simp [h0]
          · simp [h0]
      · simp [h3]
    · simp [h2]
  · simp [h1]

/-- C9 (confirmed): `extractThinking` prefers the trimmed, nonempty
explicit thinking parts (newline-joined) whenever at least one exists, and
scans the raw (unstripped) text for legacy tag pairs only when there is no
structured thinking part.  In particular a message with an explicit
`thinking` part `"X"` yields `"X"` even though its text also contains
`<think>Y</think>`, while the same message without the structured part
yields `"Y"` from the legacy scan. -/
theorem C9_thinkingPrecedence :
    (∀ m, extractThinking m =
      (match structuredThinkingParts m with
       | [] => legacyThinkingOf m
       | p :: ps => some (String.intercalate "\n" (p :: ps)))) ∧
    extractThinking thinkBothMsg = some "X" ∧
    extractThinking thinkTagsOnlyMsg = some "Y" := by
  refine ⟨?_, rfl, rfl⟩
  intro m
  cases hp : structuredThinkingParts m with
  | nil => simp [extractThinking, legacyThinkingOf, hp]
  | cons p ps => simp [extractThinking, hp]

/-- C10 (confirmed): `extractText` equals the spec-side three-source
fallback chain — string `content`, else the newline-join of `text`-typed
parts (also when `content` is an array with no such part, including the
empty array, in which case the top-level `text` field is still used), else
the top-level `text` field, each passed through the assistant-role strip —
and it returns `none` exactly when none of the three sources exists. -/
theorem C10_extractTextFallback (m : JsVal) :
    extractText m = extractTextSpec m ∧
    (extractText m).isNone = !hasTextSourceB m := by
  unfold extractText extractTextSpec hasTextSourceB
  cases hc : jsGet m "content" with
  | none =>
    cases ht : jsGet m "text" with
    | none => simp [Option.orElse]
    | some w => cases w <;> simp [Option.orElse]
  | some v =>
    cases v with
    | str c => simp [Option.orElse]
    | arr parts =>
      by_cases hp : (textPartsOf parts).isEmpty
      · cases ht : jsGet m "text" with
        | none => simp [hp, Option.orElse]
        | some w => cases w <;> simp [hp, Option.orElse]
      · simp [hp, Option.orElse]
    | num n =>
      cases ht : jsGet m "text" with
      | none => simp [Option.orElse]
      | some w => cases w <;> simp [Option.orElse]
    | bool b =>
      cases ht : jsGet m "text" with
      | none => simp [Option.orElse]
      | some w => cases w <;> simp [Option.orElse]
    | obj fs =>
      cases ht : jsGet m "text" with
      | none => simp [Option.orElse]
      | some w => cases w <;> simp [Option.orElse]
    | selfRef =>
      cases ht : jsGet m "text" with
      | none => simp [Option.orElse]
      | some w => cases w <;> simp [Option.orElse]

/-- C8 (confirmed): for every message classified as a tool-result message
whose content parts produce no explicit result card, `extractToolCards`
appends exactly one synthesized result card, named by
`toolName`/`tool_name` (default `"tool"`) and carrying the message's
extracted text. -/
theorem C8_toolResultSynthesis (m : JsVal)
    (h1 : isToolResultMessage m = true) (h2 : hasPartResultB m = false) :
    (extractToolCards m).filter (fun c => c.kind == "result") =
      [{ kind := "result", name := .str (synthToolName m), args := none,
         text := extractText m }] := by
  have hres : (normalizeContent (jsGet m "content")).filterMap (fun item =>
      let kind := partKind item
      if kind == "toolresult" || kind == "tool_result" then
        some ({ kind := "result"
                name := match jsGet item "name" with
                  | some (.str s) => JsVal.str s
                  | _ => JsVal.str "tool"
                text := extractToolText item } : ToolCard)
      else none) = [] := by
    apply filterMap_eq_nil_of _
      (fun item => partKind item == "toolresult" || partKind item == "tool_result")
    · intro x hx
      simp only [hx]
      rfl
    · simpa [hasPartResultB] using h2
  have hcall : ∀ c ∈ (normalizeContent (jsGet m "content")).filterMap (fun item =>
      let kind := partKind item
      let isToolCall :=
        kind == "toolcall" || kind == "tool_call" || kind == "tooluse" ||
        kind == "tool_use" ||
        ((match jsGet item "name" with | some (.str _) => true | _ => false) &&
          (jsGet item "arguments").isSome)
      if isToolCall then
        some ({ kind := "call"
                name := (jsGet item "name").getD (.str "tool")
                args := ((jsGet item "arguments").orElse
                  (fun _ => jsGet item "args")).map coerceArgs } : ToolCard)
      else none), c.kind = "call" := by
    intro c hc
    obtain ⟨item, _, hsome⟩ := List.mem_filterMap.mp hc
    simp only [] at hsome
    by_cases hcond : (partKind item == "toolcall" || partKind item == "tool_call" ||
        partKind item == "tooluse" || partKind item == "tool_use" ||
        ((match jsGet item "name" with | some (.str _) => true | _ => false) &&
          (jsGet item "arguments").isSome)) = true
    · rw [if_pos hcond] at hsome
      cases hsome
      rfl
    · rw [if_neg hcond] at hsome
      exact Option.noConfusion hsome
  unfold extractToolCards
  simp only []
  rw [hres, List.append_nil]
  have hany : ((normalizeContent (jsGet m "content")).filterMap (fun item =>
      let kind := partKind item
      let isToolCall :=
        kind == "toolcall" || kind == "tool_call" || kind == "tooluse" ||
        kind == "tool_use" ||
        ((match jsGet item "name" with | some (.str _) => true | _ => false) &&
          (jsGet item "arguments").isSome)
      if isToolCall then
        some ({ kind := "call"
                name := (jsGet item "name").getD (.str "tool")
                args := ((jsGet item "arguments").orElse
                  (fun _ => jsGet item "args")).map coerceArgs } : ToolCard)
      else none)).any (fun c => c.kind == "result") = false := by
    rw [List.any_eq_false]
    intro c hc
    simp [hcall c hc]
  rw [h1, hany]
  simp only [Bool.not_false, Bool.and_self, if_true, List.filter_append]
  rw [List.filter_eq_nil_iff.mpr (fun c hc => by simp [hcall c hc])]
  simp

theorem extractText_none_content (m : JsVal) (h : extractText m = none) :
    (match jsGet m "content" with
     | some (.str c) => some c
     | _ => (none : Option String)) = none := by
  cases hc : jsGet m "content" with
  | none => rfl
  | some v =>
    cases v with
    | str c => simp [extractText, hc] at h
    | num n => rfl
    | bool b => rfl
    | arr xs => rfl
    | obj fs => rfl
    | selfRef => rfl

theorem keySeed_index (m : JsVal) (i : Nat)
    (h1 : extractText m = none) (h3 : safeJson m = none) :
    keySeed m i = Nat.repr i := by
  unfold keySeed
  rw [h1, extractText_none_content m h1]
  simp [Option.orElse, h3]

theorem strFieldOr_empty_of_none (m : JsVal) (k : String)
    (h : nonemptyStr m k = none) : strFieldOr m k "" = "" := by
  rw [nonemptyStr_eq_strFieldOr] at h
  by_cases hs : strFieldOr m k "" = ""
  · exact hs
  · rw [if_neg hs] at h
    exact Option.noConfusion h

/-- C4 (corrected): during fingerprinting a failing JSON serialization is
indeed swallowed — for a message with no extractable text whose
serialization fails, the fingerprint seed falls back to the positional
index, so `messageKey` stays total — but in the fallback display path of
`renderMessage` the `JSON.stringify` call (chat.ts:410) is *not* guarded:
for an unserializable message with no tool cards an exception escapes. -/
theorem C4_serializationFallback_amended (m : JsVal) (i : Nat) :
    (extractText m = none → safeJson m = none →
     nonemptyStr m "toolCallId" = none → nonemptyStr m "id" = none →
     nonemptyStr m "messageId" = none → numField m "timestamp" = none →
     messageKey m i =
       "msg:" ++ strFieldOr m "role" "unknown" ++ ":" ++ fnv1a (Nat.repr i)) ∧
    (safeJson m = none → extractToolCards m = [] →
     renderMessageDisplay m = .error ()) := by
  constructor
  · intro h1 h3 h4 h5 h6 h7
    unfold messageKey
    rw [keySeed_index m i h1 h3, strFieldOr_empty_of_none m _ h4,
      strFieldOr_empty_of_none m _ h5, strFieldOr_empty_of_none m _ h6, h7]
    simp
  · intro h3 hc
    have h3' : jsonStringify m = none := h3
    simp only [renderMessageDisplay, hc, h3']
    rfl

/-- C4, counterexample.  The claim states that a failing JSON serialization
during the fallback display is swallowed silently and no exception escapes;
but on a cyclic message with string content and no tool cards,
`renderMessage`'s display computation throws (the unguarded
`JSON.stringify` on chat.ts:410). -/
theorem C4_serializationFallback_counterexample :
    renderMessageDisplay cyclicMsg = .error () := by
  have hc : extractToolCards cyclicMsg = [] := rfl
  have h3 : jsonStringify cyclicMsg = none := by
    simp [cyclicMsg, jsonStringify, jsonStringifyFields, jsonStringifyList]
  simp only [renderMessageDisplay, hc, h3]
  rfl

/-- C6 (confirmed): the grouping fold preserves the input order exactly
(flattening its output returns the input), merges precisely maximal runs
(no two adjacent groups share a role, and every member of a group
normalizes to the group's role), passes every non-message item through in
place, and breaks the current run at every non-message item.  In
particular roles `[user, assistant, assistant, user]` yield exactly three
groups of sizes `[1, 2, 1]`, and `[assistant, assistant, stream,
assistant]` yields a 2-message group, the pass-through stream item, then a
new single-message group. -/
theorem C6_groupingCorrectness :
    (∀ (items : List ChatItem) (now : Int),
      flattenEntries (groupMessages now items) = items ∧
      noAdjSameRoleB (groupMessages now items) = true ∧
      (groupMessages now items).all (groupHomogeneousB now) = true) ∧
    (groupMessages 0 [.message "k1" (roleMsg "user" 1),
        .message "k2" (roleMsg "assistant" 2),
        .message "k3" (roleMsg "assistant" 3),
        .message "k4" (roleMsg "user" 4)]).map entryShape =
      [("user", 1), ("assistant", 2), ("user", 1)] ∧
    (groupMessages 0 [.message "k1" (roleMsg "assistant" 1),
        .message "k2" (roleMsg "assistant" 2),
        .stream "sk" "t" 5,
        .message "k3" (roleMsg "assistant" 3)]).map entryShape =
      [("assistant", 2), ("stream", 0), ("assistant", 1)] := by
  refine ⟨?_, by decide, by decide⟩
  intro items now
  refine ⟨?_, noAdj_groupAux now items none, homog_groupAux now items none rfl⟩
  have h := flatten_groupAux now items none
  simpa [groupMessages, pendingItems] using h

theorem map_item_no_live (l : List ChatItem) (h : l.all isMessageItem = true) :
    (l.map RenderEntry.item).all (fun e => !isLiveEntry e) = true := by
  induction l with
  | nil => rfl
  | cons x xs ih =>
    simp only [List.all_cons, Bool.and_eq_true] at h
    cases x with
    | message k m => simpa [isLiveEntry] using ih h.2
    | stream a b c => simp [isMessageItem] at h
    | readingIndicator a => simp [isMessageItem] at h

theorem singleton_ite (c : Prop) [Decidable c] (a b : ChatItem) :
    (if c then [a] else [b]) = [if c then a else b] := by
  split <;> rfl

theorem build_decomp (layout : Bool) (now : Int) (base : List ChatItem)
    (it : ChatItem) (hit : isMessageItem it = false) :
    (if layout = true then groupMessages now (base ++ [it])
     else (base ++ [it]).map RenderEntry.item) =
      (if layout = true then groupMessages now base
       else base.map RenderEntry.item) ++ [.item it] := by
  cases layout with
  | true =>
    rw [if_pos rfl, if_pos rfl]
    unfold groupMessages
    exact groupAux_append_nonmsg now it hit base none
  | false =>
    rw [if_neg (by simp), if_neg (by simp)]
    simp

/-- C7 (confirmed): whenever live-stream text `s` is present, the build is
exactly the build without it plus one trailing live item at key
`"stream:" + sessionKey + ":" + (startTime or "live")` — a stream item
carrying exactly `s` when its trimmed form is nonempty, a
reading-indicator item at the same key otherwise — and when live-stream
text is absent, the build contains no stream or reading-indicator entry at
all. -/
theorem C7_liveStreamItem (sk : String) (hist tools : List JsVal)
    (s : String) (sa : Option Int) (layout : Bool) (now : Int) :
    buildChatItems sk hist tools (some s) sa layout now =
      buildChatItems sk hist tools none sa layout now ++
        [.item (if (strTrim s).length > 0 then
            ChatItem.stream ("stream:" ++ sk ++ ":" ++
              (match sa with | some t => t.repr | none => "live")) s
              (match sa with | some t => t | none => now)
          else
            ChatItem.readingIndicator ("stream:" ++ sk ++ ":" ++
              (match sa with | some t => t.repr | none => "live")))] ∧
    (buildChatItems sk hist tools none sa layout now).all
      (fun e => !isLiveEntry e) = true := by
  unfold buildChatItems
  simp only []
  have hbase : ((if hist.length - CHAT_HISTORY_RENDER_LIMIT > 0 then
      [ChatItem.message "chat:history:notice"
        (.obj [("role", .str "system"),
               ("content", .str ("Showing last " ++
                 Nat.repr CHAT_HISTORY_RENDER_LIMIT ++ " messages (" ++
                 Nat.repr (hist.length - CHAT_HISTORY_RENDER_LIMIT) ++ " hidden).")),
               ("timestamp", .num now)])]
    else []) ++
      keyedItems (hist.drop (hist.length - CHAT_HISTORY_RENDER_LIMIT))
        (hist.length - CHAT_HISTORY_RENDER_LIMIT) ++
      keyedItems tools hist.length).all isMessageItem = true := by
    simp only [List.all_append, Bool.and_eq_true]
    refine ⟨⟨?_, keyedItems_all_message _ _⟩, keyedItems_all_message _ _⟩
    split
    · rfl
    · rfl
  constructor
  · rw [List.append_nil, singleton_ite]
    exact build_decomp layout now _ _ (by split <;> rfl)
  · rw [List.append_nil]
    cases layout with
    | true =>
      rw [if_pos rfl]
      exact groupAux_no_live now _ hbase none
    | false =>
      rw [if_neg (by simp)]
      exact map_item_no_live _ hbase

theorem msgProj_keyed (ms : List JsVal) (i : Nat) :
    (keyedItems ms i).filterMap
      (fun it => match it with | .message _ m => some m | _ => none) = ms :=
  keyedItems_msgs ms i

/-- C5 (confirmed): for every history longer than the limit 200 the flat
build emits exactly one synthetic system-role notice first, whose text
states the hidden count, followed by exactly the last 200 history entries
in order and then the tool messages; for history of length at most 200 no
notice is emitted and the whole history is included. -/
theorem C5_historyTruncation (sk : String) (hist tools : List JsVal)
    (stream : Option String) (sa : Option Int) (now : Int) :
    (CHAT_HISTORY_RENDER_LIMIT < hist.length →
      msgsOf (buildChatItems sk hist tools stream sa false now) =
        JsVal.obj [("role", .str "system"),
          ("content", .str ("Showing last 200 messages (" ++
            Nat.repr (hist.length - 200) ++ " hidden).")),
          ("timestamp", .num now)] ::
        (hist.drop (hist.length - 200) ++ tools) ∧
      (buildChatItems sk hist tools stream sa false now).head? =
        some (.item (.message "chat:history:notice"
          (JsVal.obj [("role", .str "system"),
            ("content", .str ("Showing last 200 messages (" ++
              Nat.repr (hist.length - 200) ++ " hidden).")),
            ("timestamp", .num now)])))) ∧
    (hist.length ≤ CHAT_HISTORY_RENDER_LIMIT →
      msgsOf (buildChatItems sk hist tools stream sa false now) =
        hist ++ tools) := by
  have hlimit : CHAT_HISTORY_RENDER_LIMIT = 200 := rfl
  have hconst : ("Showing last " ++ Nat.repr CHAT_HISTORY_RENDER_LIMIT) ++
      " messages (" = "Showing last 200 messages (" := by decide
  have hstream : ∀ (f : ChatItem → Option JsVal),
      (∀ k t st, f (.stream k t st) = none) →
      (∀ k, f (.readingIndicator k) = none) →
      (match stream with
       | none => ([] : List ChatItem)
       | some s =>
         if (strTrim s).length > 0 then
           [.stream ("stream:" ++ sk ++ ":" ++
             (match sa with | some t => t.repr | none => "live")) s
             (match sa with | some t => t | none => now)]
         else [.readingIndicator ("stream:" ++ sk ++ ":" ++
           (match sa with | some t => t.repr | none => "live"))]).filterMap f =
        [] := by
    intro f hf1 hf2
    cases stream with
    | none => rfl
    | some s =>
      by_cases hts : (strTrim s).length > 0 <;>
        simp [hts, List.filterMap_cons, hf1, hf2]
  constructor
  · intro hlen
    have h0 : hist.length - CHAT_HISTORY_RENDER_LIMIT > 0 := by omega
    constructor
    · unfold buildChatItems
      simp only []
      rw [if_neg (by simp), if_pos h0, msgsOf_map_item]
      simp only [List.filterMap_append, msgProj_keyed, List.filterMap_cons]
      rw [hstream _ (fun _ _ _ => rfl) (fun _ => rfl)]
      simp only [List.append_nil, hlimit]
      rw [show (("Showing last " ++ Nat.repr 200) ++ " messages (") =
        "Showing last 200 messages (" from hconst]
      simp
    · unfold buildChatItems
      simp only []
      rw [if_neg (by simp), if_pos h0]
      simp only [hlimit]
      rw [show (("Showing last " ++ Nat.repr 200) ++ " messages (") =
        "Showing last 200 messages (" from hconst]
      simp
  · intro hlen
    have h0 : hist.length - CHAT_HISTORY_RENDER_LIMIT = 0 :=
      Nat.sub_eq_zero_of_le hlen
    unfold buildChatItems
    simp only []
    rw [if_neg (by simp), h0, if_neg (by simp), msgsOf_map_item]
    simp only [List.filterMap_append, msgProj_keyed, List.filterMap_cons,
      List.drop_zero, List.nil_append]
    rw [hstream _ (fun _ _ _ => rfl) (fun _ => rfl)]
    simp

set_option maxRecDepth 8000 in
/-- C1, counterexample.  The claim says two successive invocations of the
item builder on identical inputs are deep-equal including item timestamps;
but with 201 history entries the truncation notice is stamped with
`Date.now()`, so builds at different instants differ. -/
theorem C1_idempotence_counterexample :
    buildChatItems "s" (List.replicate 201 (idMsg "a")) [] none none false 0 ≠
      buildChatItems "s" (List.replicate 201 (idMsg "a")) [] none none false 1 := by
  intro h
  exact absurd (congrArg headEntryTimestamp h) (by decide)

/-- C1 (corrected): the Item Builder is deterministic in its declared
inputs *and the wall clock*: two invocations at possibly different times
produce deep-equal outputs provided no clock-derived fallback is
exercised — the history is within the 200-entry limit (no notice item
stamped with the current time), a stream start time accompanies any live
text, and, under grouping, every message carries a nonzero numeric
timestamp. -/
theorem C1_idempotence_amended (sk : String) (hist tools : List JsVal)
    (stream : Option String) (sa : Option Int) (layout : Bool) (t1 t2 : Int)
    (hlen : hist.length ≤ CHAT_HISTORY_RENDER_LIMIT)
    (hsa : stream.isSome → sa.isSome)
    (hts : layout = true → (hist ++ tools).all hasStableTsB = true) :
    buildChatItems sk hist tools stream sa layout t1 =
      buildChatItems sk hist tools stream sa layout t2 := by
  have h0 : hist.length - CHAT_HISTORY_RENDER_LIMIT = 0 :=
    Nat.sub_eq_zero_of_le hlen
  cases stream with
  | none =>
    unfold buildChatItems
    simp only [h0]
    cases layout with
    | false => rfl
    | true =>
      rw [if_pos rfl, if_pos rfl]
      unfold groupMessages
      apply groupAux_now_indep
      intro k m hm
      have hall := hts rfl
      rw [List.all_eq_true] at hall
      simp only [List.mem_append] at hm
      rcases hm with ((hm | hm) | hm) | hm
      · simp at hm
      · exact hall m (List.mem_append_left _ (keyedItems_mem_msg hist _ k m hm))
      · exact hall m (List.mem_append_right _ (keyedItems_mem_msg tools _ k m hm))
      · simp at hm
  | some s =>
    obtain ⟨t0, hsa0⟩ := Option.isSome_iff_exists.mp (hsa rfl)
    subst hsa0
    unfold buildChatItems
    simp only [h0]
    cases layout with
    | false => rfl
    | true =>
      rw [if_pos rfl, if_pos rfl]
      unfold groupMessages
      apply groupAux_now_indep
      intro k m hm
      have hall := hts rfl
      rw [List.all_eq_true] at hall
      simp only [List.mem_append] at hm
      rcases hm with ((hm | hm) | hm) | hm
      · simp at hm
      · exact hall m (List.mem_append_left _ (keyedItems_mem_msg hist _ k m hm))
      · exact hall m (List.mem_append_right _ (keyedItems_mem_msg tools _ k m hm))
      · by_cases hts2 : (strTrim s).length > 0 <;> simp [hts2] at hm

/-- C2, counterexample.  The claim says keys are pairwise distinct for
every input.  Two refutations: (1) flat layout — two distinct id-less
messages with identical role, timestamp and content receive the same
fingerprint key; (2) grouped layout — even messages with distinct
nonempty ids and no `toolCallId` can produce two groups with the same
key, because `group:` + role + `:` + first member key concatenates
without escaping. -/
theorem C2_keyUniqueness_counterexample :
    (¬ (keysOfEntries
        (buildChatItems "s" [dupMsg, dupMsg] [] none none false 0)).Nodup) ∧
    ([groupCollideA, groupCollideB] ++ []).all goodIdB = true ∧
    (([groupCollideA, groupCollideB] ++ []).map
      (fun m => strFieldOr m "id" "")).Nodup ∧
    ¬ (keysOfEntries (buildChatItems "s" [groupCollideA, groupCollideB] []
        none none true 0)).Nodup := by
  exact ⟨by decide, by decide, by decide, by decide⟩

theorem strAppend_assoc (a b c : String) : (a ++ b) ++ c = a ++ (b ++ c) := by
  ext1
  simp [String.data_append]

/-- C2 (corrected): keys are pairwise distinct within one *flat-built*
(grouping-off) sequence provided every history and tool message carries a
nonempty string `id`, no nonempty `toolCallId`, and those ids are pairwise
distinct.  Id-less messages instead receive content-fingerprint keys,
which coincide for identical role, timestamp and content; and with
grouping enabled even this id discipline does not guarantee distinct keys,
since group keys concatenate role and first member key without escaping
(second conjunct of the counterexample). -/
theorem C2_keyUniqueness_amended (sk : String) (hist tools : List JsVal)
    (stream : Option String) (sa : Option Int) (now : Int)
    (hgood : (hist ++ tools).all goodIdB = true)
    (hids : ((hist ++ tools).map (fun m => strFieldOr m "id" "")).Nodup) :
    (keysOfEntries (buildChatItems sk hist tools stream sa false now)).Nodup := by
  unfold buildChatItems
  simp only []
  rw [if_neg (show ¬(false = true) by simp)]
  rw [keysOf_map_item]
  rw [List.map_append, List.map_append, List.map_append]
  have hgall : ∀ x ∈ hist.drop (hist.length - CHAT_HISTORY_RENDER_LIMIT) ++ tools,
      goodIdB x = true := by
    intro x hx
    rw [List.all_eq_true] at hgood
    rcases List.mem_append.mp hx with hx | hx
    · exact hgood x (List.mem_append_left _ (List.drop_subset _ _ hx))
    · exact hgood x (List.mem_append_right _ hx)
  rw [keyedItems_keys_good _ _ (by
    rw [List.all_eq_true]
    intro x hx
    exact hgall x (List.mem_append_left _ hx))]
  rw [keyedItems_keys_good _ _ (by
    rw [List.all_eq_true]
    intro x hx
    exact hgall x (List.mem_append_right _ hx))]
  have hBC : ((hist.drop (hist.length - CHAT_HISTORY_RENDER_LIMIT)).map
        (fun m => "msg:" ++ strFieldOr m "id" "") ++
      tools.map (fun m => "msg:" ++ strFieldOr m "id" "")).Nodup := by
    rw [← List.map_append]
    have hmm : (hist.drop (hist.length - CHAT_HISTORY_RENDER_LIMIT) ++ tools).map
        (fun m => "msg:" ++ strFieldOr m "id" "") =
        ((hist.drop (hist.length - CHAT_HISTORY_RENDER_LIMIT) ++ tools).map
          (fun m => strFieldOr m "id" "")).map (fun s => "msg:" ++ s) := by
      rw [List.map_map]
      rfl
    rw [hmm]
    refine List.Nodup.map (strAppendInj "msg:") ?_
    refine hids.sublist ?_
    exact ((List.drop_sublist _ _).append_right _).map _
  obtain ⟨hB, hC, hBCdisj⟩ := List.nodup_append.mp hBC
  have hnotice : (if hist.length - CHAT_HISTORY_RENDER_LIMIT > 0 then
        [ChatItem.message "chat:history:notice"
          (.obj [("role", .str "system"),
                 ("content", .str ("Showing last " ++
                   Nat.repr CHAT_HISTORY_RENDER_LIMIT ++ " messages (" ++
                   Nat.repr (hist.length - CHAT_HISTORY_RENDER_LIMIT) ++ " hidden).")),
                 ("timestamp", .num now)])]
      else []).map itemKey = [] ∨
      (if hist.length - CHAT_HISTORY_RENDER_LIMIT > 0 then
        [ChatItem.message "chat:history:notice"
          (.obj [("role", .str "system"),
                 ("content", .str ("Showing last " ++
                   Nat.repr CHAT_HISTORY_RENDER_LIMIT ++ " messages (" ++
                   Nat.repr (hist.length - CHAT_HISTORY_RENDER_LIMIT) ++ " hidden).")),
                 ("timestamp", .num now)])]
      else []).map itemKey = ["chat:history:notice"] := by
    split
    · right
      rfl
    · left
      rfl
  have hstream : (match stream with
      | none => ([] : List ChatItem)
      | some s =>
        if (strTrim s).length > 0 then
          [.stream ("stream:" ++ sk ++ ":" ++
            (match sa with | some t => t.repr | none => "live")) s
            (match sa with | some t => t | none => now)]
        else [.readingIndicator ("stream:" ++ sk ++ ":" ++
          (match sa with | some t => t.repr | none => "live"))]).map itemKey = [] ∨
      ∃ b, (match stream with
      | none => ([] : List ChatItem)
      | some s =>
        if (strTrim s).length > 0 then
          [.stream ("stream:" ++ sk ++ ":" ++
            (match sa with | some t => t.repr | none => "live")) s
            (match sa with | some t => t | none => now)]
        else [.readingIndicator ("stream:" ++ sk ++ ":" ++
          (match sa with | some t => t.repr | none => "live"))]).map itemKey =
        ["stream:" ++ b] := by
    cases stream with
    | none =>
      left
      rfl
    | some s =>
      right
      refine ⟨sk ++ (":" ++ (match sa with | some t => t.repr | none => "live")), ?_⟩
      by_cases hts2 : (strTrim s).length > 0 <;>
        simp [hts2, itemKey, strAppend_assoc]
  generalize hNK : (if hist.length - CHAT_HISTORY_RENDER_LIMIT > 0 then
      [ChatItem.message "chat:history:notice"
        (.obj [("role", .str "system"),
               ("content", .str ("Showing last " ++
                 Nat.repr CHAT_HISTORY_RENDER_LIMIT ++ " messages (" ++
                 Nat.repr (hist.length - CHAT_HISTORY_RENDER_LIMIT) ++ " hidden).")),
               ("timestamp", .num now)])]
    else []).map itemKey = NK at hnotice ⊢
  generalize hSK : (match stream with
      | none => ([] : List ChatItem)
      | some s =>
        if (strTrim s).length > 0 then
          [.stream ("stream:" ++ sk ++ ":" ++
            (match sa with | some t => t.repr | none => "live")) s
            (match sa with | some t => t | none => now)]
        else [.readingIndicator ("stream:" ++ sk ++ ":" ++
          (match sa with | some t => t.repr | none => "live"))]).map itemKey = SK
    at hstream ⊢
  generalize hBn : (hist.drop (hist.length - CHAT_HISTORY_RENDER_LIMIT)).map
      (fun m => "msg:" ++ strFieldOr m "id" "") = B at hB hBCdisj ⊢
  generalize hCn : tools.map (fun m => "msg:" ++ strFieldOr m "id" "") = C
    at hC hBCdisj ⊢
  have hmemB : ∀ a ∈ B, ∃ x, a = "msg:" ++ x := by
    intro a ha
    rw [← hBn] at ha
    obtain ⟨m, _, hm⟩ := List.mem_map.mp ha
    exact ⟨_, hm.symm⟩
  have hmemC : ∀ a ∈ C, ∃ x, a = "msg:" ++ x := by
    intro a ha
    rw [← hCn] at ha
    obtain ⟨m, _, hm⟩ := List.mem_map.mp ha
    exact ⟨_, hm.symm⟩
  rw [List.nodup_append, List.nodup_append, List.nodup_append]
  refine ⟨⟨⟨?_, hB, ?_⟩, hC, ?_⟩, ?_, ?_⟩
  · rcases hnotice with h | h <;> simp [h]
  · intro a ha hb
    rcases hnotice with h | h
    · rw [h] at ha
      simp at ha
    · rw [h] at ha
      simp at ha
      obtain ⟨x, hx⟩ := hmemB a hb
      rw [ha] at hx
      exact msg_key_ne_notice x hx.symm
  · intro a ha hc
    rcases List.mem_append.mp ha with ha | ha
    · rcases hnotice with h | h
      · rw [h] at ha
        simp at ha
      · rw [h] at ha
        simp at ha
        obtain ⟨x, hx⟩ := hmemC a hc
        rw [ha] at hx
        exact msg_key_ne_notice x hx.symm
    · exact hBCdisj ha hc
  · rcases hstream with h | ⟨b, h⟩ <;> simp [h]
  · intro a ha hd
    rcases hstream with h | ⟨b, h⟩
    · rw [h] at hd
      simp at hd
    · rw [h] at hd
      simp at hd
      rcases List.mem_append.mp ha with ha2 | ha2
      · rcases List.mem_append.mp ha2 with ha3 | ha3
        · rcases hnotice with h2 | h2
          · rw [h2] at ha3
            simp at ha3
          · rw [h2] at ha3
            simp at ha3
            rw [ha3] at hd
            exact notice_ne_stream b hd
        · obtain ⟨x, hx⟩ := hmemB a ha3
          rw [hd] at hx
          exact msg_key_ne_stream x b hx.symm
      · obtain ⟨x, hx⟩ := hmemC a ha2
        rw [hd] at hx
        exact msg_key_ne_stream x b hx.symm

/-- C1 witness: a concrete instance of the amended determinism theorem with
all hypotheses discharged. -/
theorem C1_idempotence_witness :
    buildChatItems "s" [idMsg "a"] [] (some "hi") (some 3) true 0 =
      buildChatItems "s" [idMsg "a"] [] (some "hi") (some 3) true 99 :=
  C1_idempotence_amended "s" [idMsg "a"] [] (some "hi") (some 3) true 0 99
    (by decide) (fun _ => by decide) (fun _ => by decide)

/-- C2 witness: distinct native ids give pairwise-distinct keys. -/
theorem C2_keyUniqueness_witness :
    (keysOfEntries (buildChatItems "s" [idMsg "a", idMsg "b"] [idMsg "c"]
      (some "hi") none false 0)).Nodup :=
  C2_keyUniqueness_amended "s" [idMsg "a", idMsg "b"] [idMsg "c"]
    (some "hi") none 0 (by decide) (by decide)

/-- C4 witness: on a cyclic message with no text source, the fingerprint
seed is the positional index, and the display path throws. -/
theorem C4_serializationFallback_witness :
    messageKey bareCyclicMsg 7 =
      "msg:" ++ strFieldOr bareCyclicMsg "role" "unknown" ++ ":" ++
        fnv1a (Nat.repr 7) ∧
    renderMessageDisplay bareCyclicMsg = .error () := by
  have h := C4_serializationFallback_amended bareCyclicMsg 7
  have h3 : safeJson bareCyclicMsg = none := by
    simp [bareCyclicMsg, safeJson, jsonStringify, jsonStringifyFields,
      jsonStringifyList]
  exact ⟨h.1 rfl h3 rfl rfl rfl rfl, h.2 h3 rfl⟩

set_option maxRecDepth 8000 in
/-- C5 witness: 250 history entries produce one notice stating
`"50 hidden"` followed by exactly the last 200 entries. -/
theorem C5_historyTruncation_witness :
    msgsOf (buildChatItems "s" (List.replicate 250 dupMsg) [] none none false 0) =
      JsVal.obj [("role", .str "system"),
        ("content", .str ("Showing last 200 messages (" ++
          Nat.repr ((List.replicate 250 dupMsg).length - 200) ++ " hidden).")),
        ("timestamp", .num 0)] ::
      ((List.replicate 250 dupMsg).drop
        ((List.replicate 250 dupMsg).length - 200) ++ []) ∧
    (buildChatItems "s" (List.replicate 250 dupMsg) [] none none false 0).head? =
      some (.item (.message "chat:history:notice"
        (JsVal.obj [("role", .str "system"),
          ("content", .str ("Showing last 200 messages (" ++
            Nat.repr ((List.replicate 250 dupMsg).length - 200) ++ " hidden).")),
          ("timestamp", .num 0)]))) :=
  (C5_historyTruncation "s" (List.replicate 250 dupMsg) [] none none 0).1
    (by decide)

/-- C8 witness: the spec's example — role `"toolResult"`, `toolName`
`"grep"`, plain string content `"matches"` — yields exactly one synthesized
result card `{name := "grep", text := "matches"}`. -/
theorem C8_toolResultSynthesis_witness :
    (extractToolCards grepMsg).filter (fun c => c.kind == "result") =
      [{ kind := "result", name := .str "grep", args := none,
         text := some "matches" }] :=
  C8_toolResultSynthesis grepMsg rfl rfl
